import Mathlib

/-!
Verification of the cross-venue coin/network identity resolver of the
`coin_porter` repository (`src/core/exchanges/manager.py` and
`src/core/currency/coin_identifier.py`).

Python strings are embedded as `List Char` (`PyStr`); the ASCII fragment of
`str.upper` / `str.lower` / `str.strip` is modelled, which covers every string
the resolver manipulates (venue symbols, network labels, hex contract
addresses).  Python `dict`s with insertion-order iteration are embedded as
association lists, and Python `set`s (used by the resolver only for membership
tests and for one iteration whose order the claims do not depend on) as
duplicate-free lists in insertion order.
-/

/-- Embedding of a Python `str` as a list of characters. -/
abbrev PyStr := List Char

/-- ASCII upper-casing of one character, as Python `str.upper` acts on the
ASCII range (`Char.toUpper` in Lean core has the same definition). -/
def pyUpperChar (c : Char) : Char :=
  if 97 ≤ c.toNat ∧ c.toNat ≤ 122 then Char.ofNat (c.toNat - 32) else c

/-- ASCII lower-casing of one character, as Python `str.lower` acts on the
ASCII range. -/
def pyLowerChar (c : Char) : Char :=
  if 65 ≤ c.toNat ∧ c.toNat ≤ 90 then Char.ofNat (c.toNat + 32) else c

/-- Python `s.upper()` on the ASCII fragment. -/
def pyUpper (s : PyStr) : PyStr := s.map pyUpperChar

/-- Python `s.lower()` on the ASCII fragment. -/
def pyLower (s : PyStr) : PyStr := s.map pyLowerChar

/-- The six ASCII characters removed by Python `str.strip()` with no
argument. -/
def isPySpace (c : Char) : Bool :=
  c == ' ' || c == '\t' || c == '\n' || c == '\r' || c == '\x0b' || c == '\x0c'

/-- Python `s.strip()`: remove leading and trailing whitespace. -/
def pyStrip (s : PyStr) : PyStr :=
  ((s.dropWhile isPySpace).reverse.dropWhile isPySpace).reverse

/-- One-pass embedding of `re.sub(r'\([^)]*\)', '', s)` from
`NetworkStandardizer.standardize_network`.  The regex deletes, repeatedly, the
leftmost segment that starts at a `'('` and ends at the first `')'` after it
(the middle may contain further `'('`); a `'('` with no later `')'` matches
nothing and is kept.  The scan is rendered structurally: `pend = some buf`
means `buf` is the text from the currently open `'('` onward; a `')'` closes
and discards it, end of input flushes it back unchanged. -/
def removeParensAux : Option PyStr → PyStr → PyStr
  | none, [] => []
  | some pend, [] => pend
  | none, c :: rest =>
    if c = '(' then removeParensAux (some [c]) rest
    else c :: removeParensAux none rest
  | some pend, c :: rest =>
    if c = ')' then removeParensAux none rest
    else removeParensAux (some (pend ++ [c])) rest

/-- The cleaning regex of `standardize_network` (see `removeParensAux`). -/
def removeParens (s : PyStr) : PyStr := removeParensAux none s

/-- Python truthiness of an `Optional[str]` value: `None` and `""` are falsy. -/
def pyTruthy : Option PyStr → Bool
  | none => false
  | some s => s ≠ []

/-- Python `x or ""` on an `Optional[str]` value. -/
def pyOrEmpty : Option PyStr → PyStr
  | none => []
  | some s => s

/-! ## NetworkStandardizer (`coin_identifier.py`, lines 39-122) -/

/-- `NetworkMapping` dataclass: a canonical name plus its textual aliases. -/
structure NetworkMapping where
  standard_name : PyStr
  aliases : List PyStr
deriving DecidableEq, Repr

/-- The fixed alias table built by `NetworkStandardizer._create_network_mappings`,
as an insertion-ordered association list (Python `dict` preserves insertion
order, and `standardize_network` iterates it in that order). -/
def networkMappings : List (PyStr × NetworkMapping) :=
  [ ("BSC".data, ⟨"BSC".data,
      ["BSC".data, "BEP20".data, "BNB Smart Chain".data,
       "BNB Smart Chain (BEP20)".data, "BEP-20".data]⟩),
    ("ETH".data, ⟨"ETH".data,
      ["ETH".data, "ERC20".data, "Ethereum".data,
       "Ethereum (ERC20)".data, "ERC-20".data]⟩),
    ("TRX".data, ⟨"TRX".data,
      ["TRX".data, "TRC20".data, "Tron".data,
       "Tron (TRC20)".data, "TRC-20".data]⟩),
    ("ARBITRUM".data, ⟨"ARBITRUM".data,
      ["ARBITRUM".data, "ArbitrumOne".data, "Arbitrum One".data,
       "ARBI".data, "ARB".data]⟩),
    ("POLYGON".data, ⟨"POLYGON".data,
      ["MATIC".data, "Polygon".data, "Polygon PoS".data,
       "Polygon POS".data, "POLYGON".data]⟩),
    ("OPTIMISM".data, ⟨"OPTIMISM".data,
      ["OPTIMISM".data, "Optimism".data, "OP".data, "OP Mainnet".data]⟩),
    ("AVAX".data, ⟨"AVAX".data,
      ["AVAXC".data, "AVAX C-Chain".data, "CAVAX".data,
       "Avalanche C-Chain".data, "AVAX-C".data]⟩),
    ("SOL".data, ⟨"SOL".data, ["SOL".data, "Solana".data]⟩),
    ("BTC".data, ⟨"BTC".data, ["BTC".data, "Bitcoin".data]⟩),
    ("XRP".data, ⟨"XRP".data, ["XRP".data, "XRP Ledger".data]⟩),
    ("TON".data, ⟨"TON".data, ["TON".data, "The Open Network".data]⟩),
    ("APTOS".data, ⟨"APTOS".data, ["APT".data, "Aptos".data]⟩),
    ("BRC20".data, ⟨"BRC20".data,
      ["BRC20".data, "ORDIBTC".data, "ORDI-BRC20".data, "BTC".data]⟩) ]

/-- The cleaning step of `standardize_network`: strip parenthesized segments,
trim whitespace, upper-case. -/
def cleanNetworkName (s : PyStr) : PyStr := pyUpper (pyStrip (removeParens s))

/-- The lookup loop of `standardize_network`: return the key of the first
group whose upper-cased alias list contains `cleaned`. -/
def lookupStandard (cleaned : PyStr) : List (PyStr × NetworkMapping) → Option PyStr
  | [] => none
  | (key, m) :: rest =>
    if cleaned ∈ m.aliases.map pyUpper then some key else lookupStandard cleaned rest

/-- `NetworkStandardizer.standardize_network` (`coin_identifier.py` 103-117):
empty input maps to the empty string; otherwise clean the label and return the
first matching group's canonical name, or the cleaned text when no group
matches. -/
def standardizeNetwork (network_name : PyStr) : PyStr :=
  if network_name = [] then []
  else
    let cleaned := cleanNetworkName network_name
    match lookupStandard cleaned networkMappings with
    | some key => key
    | none => cleaned

example : standardizeNetwork "BNB Smart Chain (BEP20)".data = "BSC".data := by decide
example : standardizeNetwork "bep20".data = "BSC".data := by decide
example : standardizeNetwork "BTC".data = "BTC".data := by decide
example : standardizeNetwork "Weird Net".data = "WEIRD NET".data := by decide

/-! ## Data model (`exchanges/base.py`, `coin_identifier.py`)

Numeric fee/limit fields (`min_withdrawal`, `withdrawal_fee`, …) and the
status fields (`busy`, `congestion`, …) are carried by the source as opaque
payload: the resolver copies some of them and never reads any.  They are
omitted from the embedding; every field the resolver inspects is present. -/

/-- `SearchableNetworkInfo` (`base.py` 39-67), restricted to the fields the
resolver reads or forwards into its output. -/
structure SearchableNetworkInfo where
  network : PyStr
  chain_type : Option PyStr := none
  deposit_enabled : Bool := true
  withdrawal_enabled : Bool := true
  contract_address : Option PyStr := none
  browser_url : Option PyStr := none
deriving DecidableEq, Repr

/-- `SearchableCoinInfo` (`base.py` 72-80).  The `denomination` field is not
declared on the dataclass in `base.py`, but it is supplied at the construction
site (`binance.py` 186-192, `denomination=denomination`) and read by the
resolver (`manager.py` 158) and by the repository's tests
(`test_babydoge_debug.py` 30); it is embedded as the de-facto field
`Optional[int]`, defaulting to `None` for the venues that do not pass it. -/
structure SearchableCoinInfo where
  exchange : PyStr
  symbol : PyStr
  name : PyStr
  denomination : Option Int := none
  networks : List SearchableNetworkInfo := []
deriving DecidableEq, Repr

/-- `NetworkInfo` (`base.py` 7-16), restricted as above.  The `actual_symbol`
field is not declared on the dataclass but is supplied where the resolver
constructs it (`manager.py` 182) and read back at `manager.py` 321 and by the
UI (`main_window.py` 454); it is embedded as the de-facto `Optional[str]`
field. -/
structure NetworkInfo where
  network : PyStr
  deposit_enabled : Bool
  withdrawal_enabled : Bool
  contract_address : Option PyStr := none
  network_full_name : Option PyStr := none
  browser_url : Option PyStr := none
  actual_symbol : Option PyStr := none
deriving DecidableEq, Repr

/-- `CoinVariant` (`coin_identifier.py` 20-27).  The `source` provenance field
is not declared on the dataclass but is supplied at both construction sites of
the resolver (`manager.py` 308, 328) and read by the UI
(`main_window.py` 362-364); it is embedded as the de-facto field. -/
structure CoinVariant where
  exchange : PyStr
  symbol : PyStr
  network : PyStr
  contract_address : PyStr
  is_verified : Bool := true
  source : PyStr
deriving DecidableEq, Repr

/-- `CoinIdentificationResult` (`coin_identifier.py` 30-36); `debug_info`
holds free-form diagnostic notes. -/
structure CoinIdentificationResult where
  original_symbol : PyStr
  verified_matches : List CoinVariant
  possible_matches : List CoinVariant
  debug_info : List PyStr
deriving DecidableEq, Repr

/-! ## DenominationMatcher (`manager.py` 150-168, repeated verbatim at
199-218 and 244-257) -/

/-- Python `str(d)` for the denomination integer. -/
def pyStrOfInt (d : Int) : PyStr := (toString d).data

/-- The symbol-match check of `_search_from_cached_data` (`manager.py`
150-168): direct case-insensitive equality; else, for a truthy denomination
greater than 1, strip the decimal digits of the denomination when the listed
symbol starts with them (case-insensitive comparison of the remainder), else
for denomination 1000000 strip a literal leading `"1M"`.  The guard
`coin.denomination and coin.denomination > 1` is Python truthiness (`d ≠ 0`)
followed by the comparison. -/
def symbolMatches (symbol : PyStr) (denomination : Option Int) (currency : PyStr) : Bool :=
  if pyUpper symbol = pyUpper currency then true
  else
    match denomination with
    | none => false
    | some d =>
      if d ≠ 0 ∧ 1 < d then
        if (pyStrOfInt d).isPrefixOf symbol then
          pyUpper (symbol.drop (pyStrOfInt d).length) = pyUpper currency
        else if d = 1000000 ∧ ("1M".data).isPrefixOf symbol then
          pyUpper (symbol.drop 2) = pyUpper currency
        else false
      else false

example : symbolMatches "1000SATS".data (some 1000) "SATS".data = true := by decide
example : symbolMatches "1MBABYDOGE".data (some 1000000) "BABYDOGE".data = true := by decide
example : symbolMatches "SATOSHI".data (some 1000) "SATS".data = false := by decide
example : symbolMatches "cat".data none "CAT".data = true := by decide

/-! ## Container helpers

Python `dict`s iterate in insertion order; they are embedded as association
lists.  Python `set`s are embedded as duplicate-free lists in insertion
order: the resolver uses them for membership tests and for one final
iteration (over `all_related_contracts`), whose unspecified CPython ordering
the claims below do not depend on. -/

/-- `set.add`: append when absent. -/
def insertNew {α : Type} [DecidableEq α] (l : List α) (a : α) : List α :=
  if a ∈ l then l else l ++ [a]

/-- Association-list lookup (`dict.get` / `in`). -/
def assocLookup {κ β : Type} [DecidableEq κ] : List (κ × β) → κ → Option β
  | [], _ => none
  | (k', v) :: rest, k => if k = k' then some v else assocLookup rest k

/-- `if key not in m: m[key] = []` followed by `m[key].append(b)`:
append to the list at `k`, creating the key at the end on first use. -/
def assocAppend {κ β : Type} [DecidableEq κ] :
    List (κ × List β) → κ → β → List (κ × List β)
  | [], k, b => [(k, [b])]
  | (k', vs) :: rest, k, b =>
    if k = k' then (k', vs ++ [b]) :: rest else (k', vs) :: assocAppend rest k b

/-- `m[k] = v`: overwrite in place, or append a new key at the end. -/
def assocSet {κ β : Type} [DecidableEq κ] : List (κ × β) → κ → β → List (κ × β)
  | [], k, v => [(k, v)]
  | (k', v') :: rest, k, v =>
    if k = k' then (k, v) :: rest else (k', v') :: assocSet rest k v

/-- The catalog consumed by the resolver: venue name → ordered coin listings
(`searchable_data_by_exchange`). -/
abbrev Catalog := List (PyStr × List SearchableCoinInfo)

/-! ## TraditionalMatcher: `ExchangeManager._search_from_cached_data`
(`manager.py` 143-188) -/

/-- Python `x or y` for an `Optional[str]` `x` and a `str` `y`. -/
def pyOrStr (x : Option PyStr) (y : PyStr) : PyStr :=
  match x with
  | some s => if s = [] then y else s
  | none => y

/-- The `NetworkInfo` built at `manager.py` 173-183 from a matched coin's
network listing. -/
def toNetworkInfo (coin : SearchableCoinInfo) (n : SearchableNetworkInfo) : NetworkInfo :=
  { network := n.network
    deposit_enabled := n.deposit_enabled
    withdrawal_enabled := n.withdrawal_enabled
    contract_address := n.contract_address
    network_full_name := some (pyOrStr n.chain_type n.network)
    browser_url := n.browser_url
    actual_symbol := some coin.symbol }

/-- The per-venue scan of `_search_from_cached_data`: the first coin whose
symbol matches (directly or via denomination) contributes one `NetworkInfo`
per network listing, and the loop breaks. -/
def searchNetworks (currency : PyStr) : List SearchableCoinInfo → List NetworkInfo
  | [] => []
  | coin :: coins =>
    if symbolMatches coin.symbol coin.denomination currency then
      coin.networks.map (toNetworkInfo coin)
    else
      searchNetworks currency coins

/-- `_search_from_cached_data`: every venue of the catalog is present in the
result (possibly with an empty network list). -/
def searchFromCachedData (currency : PyStr) (data : Catalog) :
    List (PyStr × List NetworkInfo) :=
  data.map (fun p => (p.1, searchNetworks currency p.2))

/-- `ExchangeManager._convert_traditional_to_variants` (`manager.py` 314-331):
one `traditional` `CoinVariant` per network of each venue's search result,
using the actually-found symbol (falling back to the upper-cased query when it
is absent or empty). -/
def convertTraditionalToVariants (traditional : List (PyStr × List NetworkInfo))
    (currency : PyStr) : List CoinVariant :=
  traditional.flatMap (fun p =>
    p.2.map (fun n =>
      { exchange := p.1
        symbol := pyOrStr n.actual_symbol (pyUpper currency)
        network := n.network
        contract_address := pyOrEmpty n.contract_address
        is_verified := true
        source := "traditional".data }))

/-! ## ContractClosureMatcher: `ExchangeManager._smart_identification_from_cached_data`
(`manager.py` 190-312) -/

/-- The composite contract identity key
`f"{contract_address.lower()}_{standardized_network}"` (`manager.py` 233). -/
def mkContractKey (addr : PyStr) (network : PyStr) : PyStr :=
  pyLower addr ++ '_' :: standardizeNetwork network

/-- `manager.py` 197-222: the `(exchange, symbol, network)` triples the
traditional matcher would find, used by the smart matcher as an exclusion
set.  Unlike `_search_from_cached_data` this pass does not break at a
venue's first matching coin. -/
def traditionalFound (currency : PyStr) (data : Catalog) :
    List (PyStr × PyStr × PyStr) :=
  data.foldl (fun acc p =>
    p.2.foldl (fun acc coin =>
      if symbolMatches coin.symbol coin.denomination currency then
        coin.networks.foldl (fun acc n => insertNew acc (p.1, coin.symbol, n.network)) acc
      else acc) acc) []

/-- One network listing's contribution to the contract-identity index
(`manager.py` 229-236): listings with a falsy (`None`/empty) contract address
are skipped; the rest are appended under their contract key. -/
def contractMapStepNet (ex sym : PyStr) (m : List (PyStr × List (PyStr × PyStr × PyStr)))
    (n : SearchableNetworkInfo) : List (PyStr × List (PyStr × PyStr × PyStr)) :=
  match n.contract_address with
  | some a =>
    if a ≠ [] then assocAppend m (mkContractKey a n.network) (ex, sym, n.network)
    else m
  | none => m

/-- One coin's contribution to the contract-identity index. -/
def contractMapStepCoin (ex : PyStr) (m : List (PyStr × List (PyStr × PyStr × PyStr)))
    (coin : SearchableCoinInfo) : List (PyStr × List (PyStr × PyStr × PyStr)) :=
  coin.networks.foldl (contractMapStepNet ex coin.symbol) m

/-- One venue's contribution to the contract-identity index. -/
def contractMapStepVenue (m : List (PyStr × List (PyStr × PyStr × PyStr)))
    (p : PyStr × List SearchableCoinInfo) : List (PyStr × List (PyStr × PyStr × PyStr)) :=
  p.2.foldl (contractMapStepCoin p.1) m

/-- `manager.py` 226-236: the contract-identity index
`{contract_key: [(exchange, symbol, original_network)]}`, collecting every
network listing with a truthy contract address, in catalog order. -/
def buildContractMap (data : Catalog) : List (PyStr × List (PyStr × PyStr × PyStr)) :=
  data.foldl contractMapStepVenue []

/-- `manager.py` 240-265: the contract keys of every listing whose symbol
matches the query (denomination-aware). -/
def inputContracts (currency : PyStr) (data : Catalog) : List PyStr :=
  data.foldl (fun acc p =>
    p.2.foldl (fun acc coin =>
      if symbolMatches coin.symbol coin.denomination currency then
        coin.networks.foldl (fun acc n =>
          match n.contract_address with
          | some a => if a ≠ [] then insertNew acc (mkContractKey a n.network) else acc
          | none => acc) acc
      else acc) acc) []

/-- `manager.py` 269-277 (stage one): every symbol, upper-cased, appearing in
the index lists of the input contract keys. -/
def relatedSymbols (cm : List (PyStr × List (PyStr × PyStr × PyStr)))
    (inputs : List PyStr) : List PyStr :=
  inputs.foldl (fun acc k =>
    match assocLookup cm k with
    | some entries => entries.foldl (fun acc e => insertNew acc (pyUpper e.2.1)) acc
    | none => acc) []

/-- `manager.py` 280-290 (stage two): all contract keys of every listing whose
upper-cased symbol is related. -/
def allRelatedContracts (rel : List PyStr) (data : Catalog) : List PyStr :=
  data.foldl (fun acc p =>
    p.2.foldl (fun acc coin =>
      if pyUpper coin.symbol ∈ rel then
        coin.networks.foldl (fun acc n =>
          match n.contract_address with
          | some a => if a ≠ [] then insertNew acc (mkContractKey a n.network) else acc
          | none => acc) acc
      else acc) acc) []

/-- `manager.py` 294-311 (stage three): one `smart` variant per index entry of
each expanded contract key, excluding triples the traditional matcher found;
the record's contract address is `contract_key.split('_')[0]`. -/
def emitVariants (cm : List (PyStr × List (PyStr × PyStr × PyStr)))
    (tf : List (PyStr × PyStr × PyStr)) (keys : List PyStr) : List CoinVariant :=
  keys.foldl (fun acc k =>
    match assocLookup cm k with
    | some entries =>
      entries.foldl (fun acc e =>
        if (e.1, e.2.1, e.2.2) ∈ tf then acc
        else acc ++ [{ exchange := e.1
                       symbol := e.2.1
                       network := e.2.2
                       contract_address := k.takeWhile (fun c => c ≠ '_')
                       is_verified := true
                       source := "smart".data }]) acc
    | none => acc) []

/-- `ExchangeManager._smart_identification_from_cached_data`, assembled from
its four passes. -/
def smartIdentification (currency : PyStr) (data : Catalog) : List CoinVariant :=
  emitVariants (buildContractMap data) (traditionalFound currency data)
    (allRelatedContracts
      (relatedSymbols (buildContractMap data) (inputContracts currency data)) data)

/-! ## ResultMerger: the merge/dedup section of
`ExchangeManager.enhanced_currency_query` (`manager.py` 114-141) -/

/-- The dedup key of `manager.py` 123-127: a 4-tuple including the lower-cased
contract address when the address is truthy and has a truthy `strip()`,
otherwise a 3-tuple.  Python tuples of different lengths are never equal, so
the two shapes are kept apart with `Option`. -/
def mergeKey (m : CoinVariant) : PyStr × PyStr × PyStr × Option PyStr :=
  if m.contract_address ≠ [] ∧ pyStrip m.contract_address ≠ [] then
    (m.exchange, m.symbol, m.network, some (pyLower m.contract_address))
  else
    (m.exchange, m.symbol, m.network, none)

/-- The dedup loop of `manager.py` 120-131: keep a match when its key is not
in `seen`, recording the key. -/
def dedupVariants (seen : List (PyStr × PyStr × PyStr × Option PyStr)) :
    List CoinVariant → List CoinVariant
  | [] => []
  | m :: ms =>
    if mergeKey m ∈ seen then dedupVariants seen ms
    else m :: dedupVariants (mergeKey m :: seen) ms

/-- The merge of `enhanced_currency_query`: traditional variants first, then
smart variants, deduplicated; everything retained is verified, and
`possible_matches` and `debug_info` are empty. -/
def resultMerger (currency : PyStr) (traditional smart : List CoinVariant) :
    CoinIdentificationResult :=
  { original_symbol := currency
    verified_matches := dedupVariants [] (traditional ++ smart)
    possible_matches := []
    debug_info := [] }

/-- The pure core of `ExchangeManager.enhanced_currency_query`
(`manager.py` 104-141): traditional search, smart identification, merge. -/
def enhancedQueryPure (currency : PyStr) (data : Catalog) : CoinIdentificationResult :=
  resultMerger currency
    (convertTraditionalToVariants (searchFromCachedData currency data) currency)
    (smartIdentification currency data)

/-! ## `ContractAddressDatabase.add_contract` (`coin_identifier.py` 125-149) -/

/-- `ContractAddressDatabase`: `contracts` maps a contract address to
`{standardized_network: symbol}`, `symbols` maps a symbol to
`{standardized_network: contract_address}`. -/
structure ContractAddressDatabase where
  contracts : List (PyStr × List (PyStr × PyStr)) := []
  symbols : List (PyStr × List (PyStr × PyStr)) := []
deriving DecidableEq, Repr

/-- `m.setdefault(k, {})[k2] = v` as performed by `add_contract`. -/
def assocSetNested {κ κ₂ β : Type} [DecidableEq κ] [DecidableEq κ₂] :
    List (κ × List (κ₂ × β)) → κ → κ₂ → β → List (κ × List (κ₂ × β))
  | [], k, k2, v => [(k, [(k2, v)])]
  | (k', inner) :: rest, k, k2, v =>
    if k = k' then (k', assocSet inner k2 v) :: rest
    else (k', inner) :: assocSetNested rest k k2 v

/-- `ContractAddressDatabase.add_contract` (`coin_identifier.py` 132-149):
empty and placeholder (`"null"`/`"none"`/`""`, case-insensitively) contract
addresses are rejected; otherwise both indices are updated under the
standardized network name.  The `exchange` argument is accepted and unused,
as in the source. -/
def addContract (db : ContractAddressDatabase) (symbol network contract_address : PyStr)
    (_exchange : PyStr) : ContractAddressDatabase :=
  if contract_address = [] ∨
      pyLower contract_address ∈ ["null".data, "none".data, ([] : PyStr)] then db
  else
    let std := standardizeNetwork network
    { contracts := assocSetNested db.contracts contract_address std symbol
      symbols := assocSetNested db.symbols symbol std contract_address }

/-! ## Character-level lemmas -/

theorem charToNat_ofNat {n : Nat} (h : n < 55296) : (Char.ofNat n).toNat = n := by
  have hv : n.isValidChar := Or.inl h
  simp [Char.ofNat, dif_pos hv, Char.ofNatAux, Char.toNat, UInt32.toNat]

theorem charToNat_inj {a b : Char} (h : a.toNat = b.toNat) : a = b := by
  have := congrArg Char.ofNat h
  simpa [Char.ofNat_toNat] using this

theorem char_eq_iff_toNat {a b : Char} : a = b ↔ a.toNat = b.toNat :=
  ⟨congrArg _, charToNat_inj⟩

theorem pyUpperChar_toNat (c : Char) : (pyUpperChar c).toNat =
    if 97 ≤ c.toNat ∧ c.toNat ≤ 122 then c.toNat - 32 else c.toNat := by
  unfold pyUpperChar
  split
  · exact charToNat_ofNat (by omega)
  · rfl

theorem pyLowerChar_toNat (c : Char) : (pyLowerChar c).toNat =
    if 65 ≤ c.toNat ∧ c.toNat ≤ 90 then c.toNat + 32 else c.toNat := by
  unfold pyLowerChar
  split
  · exact charToNat_ofNat (by omega)
  · rfl

theorem pyUpperChar_idem (c : Char) : pyUpperChar (pyUpperChar c) = pyUpperChar c := by
  apply charToNat_inj
  rw [pyUpperChar_toNat]
  have hm := pyUpperChar_toNat c
  by_cases h : 97 ≤ c.toNat ∧ c.toNat ≤ 122
  · rw [if_pos h] at hm
    rw [if_neg (by omega)]
  · rw [if_neg h] at hm
    rw [if_neg (by omega)]

theorem isPySpace_toNat (c : Char) : isPySpace c = true ↔
    (c.toNat = 32 ∨ c.toNat = 9 ∨ c.toNat = 10 ∨ c.toNat = 13 ∨ c.toNat = 11 ∨ c.toNat = 12) := by
  simp only [isPySpace, Bool.or_eq_true, beq_iff_eq, char_eq_iff_toNat,
    show (' ' : Char).toNat = 32 from rfl, show ('\t' : Char).toNat = 9 from rfl,
    show ('\n' : Char).toNat = 10 from rfl, show ('\r' : Char).toNat = 13 from rfl,
    show ('\x0b' : Char).toNat = 11 from rfl, show ('\x0c' : Char).toNat = 12 from rfl]
  tauto

theorem isPySpace_pyUpperChar (c : Char) : isPySpace (pyUpperChar c) = isPySpace c := by
  by_cases h : 97 ≤ c.toNat ∧ c.toNat ≤ 122
  · have h1 : (pyUpperChar c).toNat = c.toNat - 32 := by rw [pyUpperChar_toNat, if_pos h]
    have ha : isPySpace (pyUpperChar c) = false := by
      rw [← Bool.not_eq_true, isPySpace_toNat]; omega
    have hb : isPySpace c = false := by
      rw [← Bool.not_eq_true, isPySpace_toNat]; omega
    rw [ha, hb]
  · have hc : pyUpperChar c = c := by simp only [pyUpperChar, if_neg h]
    rw [hc]

/-- Characters that are neither ASCII upper- nor lower-case letters are
reached by `pyUpperChar` only from themselves. -/
theorem pyUpperChar_fix_iff {t : Char} (h1 : ¬ (65 ≤ t.toNat ∧ t.toNat ≤ 90))
    (h2 : ¬ (97 ≤ t.toNat ∧ t.toNat ≤ 122)) (c : Char) :
    pyUpperChar c = t ↔ c = t := by
  constructor
  · intro he
    by_cases h : 97 ≤ c.toNat ∧ c.toNat ≤ 122
    · exfalso
      have h1' : (pyUpperChar c).toNat = c.toNat - 32 := by rw [pyUpperChar_toNat, if_pos h]
      rw [he] at h1'
      omega
    · rwa [pyUpperChar, if_neg h] at he
  · intro he
    subst he
    rw [pyUpperChar, if_neg h2]

/-- Characters that are neither ASCII upper- nor lower-case letters are
reached by `pyLowerChar` only from themselves. -/
theorem pyLowerChar_fix_iff {t : Char} (h1 : ¬ (65 ≤ t.toNat ∧ t.toNat ≤ 90))
    (h2 : ¬ (97 ≤ t.toNat ∧ t.toNat ≤ 122)) (c : Char) :
    pyLowerChar c = t ↔ c = t := by
  constructor
  · intro he
    by_cases h : 65 ≤ c.toNat ∧ c.toNat ≤ 90
    · exfalso
      have h1' : (pyLowerChar c).toNat = c.toNat + 32 := by rw [pyLowerChar_toNat, if_pos h]
      rw [he] at h1'
      omega
    · rwa [pyLowerChar, if_neg h] at he
  · intro he
    subst he
    rw [pyLowerChar, if_neg h1]

/-! ## C2: the denomination-match predicate -/

/-- Specification predicate for denomination matching, written from the
claim's words (spec §4.2): match iff case-insensitive equality, or
`d > 1` and the listed symbol starts with the decimal digits of `d` with the
stripped remainder equal to the query, or `d = 1000000` and the listed symbol
starts with the literal prefix `"1M"` with the stripped remainder equal to
the query. -/
def matchesSpec (symbol : PyStr) (denomination : Option Int) (currency : PyStr) : Bool :=
  (pyUpper symbol = pyUpper currency) ||
  (match denomination with
   | none => false
   | some d =>
     (decide (1 < d) && (pyStrOfInt d).isPrefixOf symbol &&
       decide (pyUpper (symbol.drop (pyStrOfInt d).length) = pyUpper currency)) ||
     (decide (d = 1000000) && ("1M".data).isPrefixOf symbol &&
       decide (pyUpper (symbol.drop 2) = pyUpper currency)))

/-- No string starts with both `"1000000"` and `"1M"` (their second
characters differ), so the `elif` ordering of the source cannot lose a
`"1M"` match. -/
theorem prefix_conflict (s : PyStr) (h1 : ("1000000".data).isPrefixOf s = true)
    (h2 : ("1M".data).isPrefixOf s = true) : False := by
  rw [List.isPrefixOf_iff_prefix] at h1 h2
  obtain ⟨t1, ht1⟩ := h1
  obtain ⟨t2, ht2⟩ := h2
  rw [← ht1] at ht2
  have ht2' : ('1' :: 'M' :: t2 : PyStr) =
      '1' :: '0' :: '0' :: '0' :: '0' :: '0' :: '0' :: t1 := ht2
  injection ht2' with ha hb
  injection hb with hc hd
  exact absurd hc (by decide)

theorem symbolMatches_eq_matchesSpec (s : PyStr) (dopt : Option Int) (q : PyStr) :
    symbolMatches s dopt q = matchesSpec s dopt q := by
  cases dopt with
  | none =>
    by_cases h : pyUpper s = pyUpper q <;> simp [symbolMatches, matchesSpec, h]
  | some d =>
    by_cases h : pyUpper s = pyUpper q
    · simp [symbolMatches, matchesSpec, h]
    · by_cases hd : d ≠ 0 ∧ 1 < d
      · by_cases hp : (pyStrOfInt d).isPrefixOf s = true
        · by_cases he : pyUpper (s.drop (pyStrOfInt d).length) = pyUpper q
          · simp [symbolMatches, matchesSpec, h, hd, hp, he, hd.2]
          · by_cases h6 : d = 1000000
            · have hp7 : ("1000000".data).isPrefixOf s = true := by
                have hds : pyStrOfInt 1000000 = "1000000".data := by decide
                rw [h6, hds] at hp
                exact hp
              have hnp : ("1M".data).isPrefixOf s = false := by
                by_contra hc
                exact prefix_conflict s hp7 (by simpa using hc)
              simp [symbolMatches, matchesSpec, h, hd, hp, he, hnp]
            · simp [symbolMatches, matchesSpec, h, hd, hp, he, h6]
        · by_cases h1m : d = 1000000 ∧ ("1M".data).isPrefixOf s = true
          · obtain ⟨h6, hm⟩ := h1m
            subst h6
            have hp' : ¬ (pyStrOfInt 1000000 <+: s) := by simpa using hp
            simp [symbolMatches, matchesSpec, h, hd, hp, hp', hm, hd.2]
          · rcases Decidable.not_and_iff_or_not.mp h1m with h6 | hm
            · simp [symbolMatches, matchesSpec, h, hd, hp, h1m, h6]
            · simp [symbolMatches, matchesSpec, h, hd, hp, h1m, hm]
      · have hd1 : ¬ (1 < d) := by omega
        have hd2 : d ≠ 1000000 := by omega
        simp [symbolMatches, matchesSpec, h, hd, hd1, hd2]

/-- C2: the denomination-match predicate (the symbol check of
`_search_from_cached_data`, repeated verbatim inside
`_smart_identification_from_cached_data`) agrees with the spec's ordered,
case-insensitive rules on all inputs, and on the three quoted examples. -/
theorem C2_denomination_matcher :
    (∀ (s : PyStr) (d : Option Int) (q : PyStr), symbolMatches s d q = matchesSpec s d q) ∧
    symbolMatches "1000SATS".data (some 1000) "SATS".data = true ∧
    symbolMatches "1MBABYDOGE".data (some 1000000) "BABYDOGE".data = true ∧
    symbolMatches "SATOSHI".data (some 1000) "SATS".data = false :=
  ⟨symbolMatches_eq_matchesSpec, by decide, by decide, by decide⟩

/-! ## C8: idempotence of the network-label standardizer -/

/-- A string in which no `'('` is later followed by a `')'`: the cleaning
regex finds no match in it. -/
def noParenPair (s : PyStr) : Prop := ¬ List.Sublist ['(', ')'] s

theorem noParenPair_of_sublist {s t : PyStr} (h : List.Sublist t s) (hs : noParenPair s) :
    noParenPair t := fun hc => hs (hc.trans h)

theorem removeParensAux_no_close (p : PyStr) :
    ∀ rest : PyStr, ')' ∉ rest → removeParensAux (some p) rest = p ++ rest := by
  intro rest
  induction rest generalizing p with
  | nil => intro _; simp [removeParensAux]
  | cons c t ih =>
    intro hc
    have hcc : c ≠ ')' := fun h => hc (h ▸ List.mem_cons_self c t)
    have hct : ')' ∉ t := fun h => hc (List.mem_cons_of_mem c h)
    simp only [removeParensAux, if_neg hcc]
    rw [ih (p ++ [c]) hct]
    simp

theorem removeParensAux_to_close (p : PyStr) :
    ∀ u v : PyStr, ')' ∉ u →
      removeParensAux (some p) (u ++ ')' :: v) = removeParensAux none v := by
  intro u
  induction u generalizing p with
  | nil => intro v _; simp [removeParensAux]
  | cons c t ih =>
    intro v hc
    have hcc : c ≠ ')' := fun h => hc (h ▸ List.mem_cons_self c t)
    have hct : ')' ∉ t := fun h => hc (List.mem_cons_of_mem c h)
    simp only [List.cons_append, removeParensAux, if_neg hcc]
    exact ih (p ++ [c]) v hct

theorem exists_first_close {l : PyStr} (h : ')' ∈ l) :
    ∃ u v : PyStr, l = u ++ ')' :: v ∧ ')' ∉ u := by
  induction l with
  | nil => cases h
  | cons c t ih =>
    by_cases hc : c = ')'
    · exact ⟨[], t, by subst hc; rfl, by simp⟩
    · have ht : ')' ∈ t := by
        rcases List.mem_cons.mp h with h1 | h1
        · exact absurd h1.symm hc
        · exact h1
      obtain ⟨u, v, huv, hnu⟩ := ih ht
      exact ⟨c :: u, v, by rw [List.cons_append, huv],
        fun hm => by
          rcases List.mem_cons.mp hm with h1 | h1
          · exact hc h1.symm
          · exact hnu h1⟩

theorem removeParensAux_none_open (rest : PyStr) :
    removeParensAux none ('(' :: rest) = removeParensAux (some ['(']) rest := by
  simp [removeParensAux]

theorem removeParensAux_none_other {c : Char} (h : c ≠ '(') (rest : PyStr) :
    removeParensAux none (c :: rest) = c :: removeParensAux none rest := by
  simp [removeParensAux, h]

theorem noParenPair_removeParens_aux :
    ∀ (n : Nat) (s : PyStr), s.length ≤ n → noParenPair (removeParensAux none s) := by
  intro n
  induction n with
  | zero =>
    intro s hs
    have hse : s = [] := List.length_eq_zero.mp (Nat.le_zero.mp hs)
    subst hse
    intro hc
    simp [removeParensAux] at hc
  | succ n ih =>
    intro s hs
    match s with
    | [] =>
      intro hc
      simp [removeParensAux] at hc
    | c :: rest =>
      have hrl : rest.length ≤ n := by simpa using Nat.le_of_succ_le_succ hs
      by_cases hc : c = '('
      · subst hc
        rw [removeParensAux_none_open]
        by_cases hr : ')' ∈ rest
        · obtain ⟨u, v, huv, hnu⟩ := exists_first_close hr
          rw [huv, removeParensAux_to_close _ u v hnu]
          apply ih
          have hlen : rest.length = u.length + 1 + v.length := by
            rw [huv]
            simp [List.length_append]
            omega
          omega
        · rw [removeParensAux_no_close _ rest hr]
          intro hsub
          have hsub' : List.Sublist ['(', ')'] ('(' :: rest) := hsub
          rcases List.sublist_cons_iff.mp hsub' with h1 | ⟨r, hr1, hr2⟩
          · exact hr (h1.subset (by simp))
          · have hre : r = [')'] := by
              injection hr1 with h2 h3
              exact h3.symm
            subst hre
            exact hr (List.singleton_sublist.mp hr2)
      · rw [removeParensAux_none_other hc]
        intro hsub
        rcases List.sublist_cons_iff.mp hsub with h1 | ⟨r, hr1, hr2⟩
        · exact ih rest hrl h1
        · injection hr1 with h2 h3
          exact hc h2.symm

/-- The cleaning regex leaves no removable segment behind. -/
theorem noParenPair_removeParens (s : PyStr) : noParenPair (removeParens s) :=
  noParenPair_removeParens_aux s.length s (Nat.le_refl _)

/-- On strings with no removable segment the cleaning regex is the
identity. -/
theorem removeParens_eq_self {s : PyStr} (hs : noParenPair s) : removeParens s = s := by
  unfold removeParens
  induction s with
  | nil => rfl
  | cons c rest ih =>
    have hrest : noParenPair rest :=
      noParenPair_of_sublist (List.sublist_cons_self c rest) hs
    by_cases hc : c = '('
    · subst hc
      have hr : ')' ∉ rest := by
        intro hm
        exact hs (List.cons_sublist_cons.mpr (List.singleton_sublist.mpr hm))
      rw [removeParensAux_none_open, removeParensAux_no_close _ rest hr]
      rfl
    · rw [removeParensAux_none_other hc]
      rw [ih hrest]

theorem dropWhile_twice (p : Char → Bool) (l : PyStr) :
    List.dropWhile p (List.dropWhile p l) = List.dropWhile p l := by
  induction l with
  | nil => rfl
  | cons c t ih =>
    by_cases hc : p c = true
    · rw [List.dropWhile_cons_of_pos hc]
      exact ih
    · rw [List.dropWhile_cons_of_neg hc, List.dropWhile_cons_of_neg hc]

theorem dropWhile_eq_self_of_prefix {p : Char → Bool} {l m : PyStr}
    (hpre : l <+: m) (hm : List.dropWhile p m = m) : List.dropWhile p l = l := by
  cases l with
  | nil => rfl
  | cons c t =>
    obtain ⟨r, hr⟩ := hpre
    have hcm : ¬ p c = true := by
      intro hpc
      have hm' : List.dropWhile p m = List.dropWhile p (t ++ r) := by
        rw [← hr, List.cons_append, List.dropWhile_cons_of_pos hpc]
      have hlen : (List.dropWhile p (t ++ r)).length ≤ (t ++ r).length :=
        (List.dropWhile_suffix p).sublist.length_le
      rw [hm] at hm'
      have hml : m.length = (c :: (t ++ r)).length := by rw [← hr]; rfl
      rw [hm'] at hml
      rw [List.length_cons] at hml
      omega
    rw [List.dropWhile_cons_of_neg hcm]

theorem pyStrip_prefix_dropWhile (s : PyStr) :
    pyStrip s <+: List.dropWhile isPySpace s := by
  have hr : List.dropWhile isPySpace (List.dropWhile isPySpace s).reverse <:+
      (List.dropWhile isPySpace s).reverse := List.dropWhile_suffix _
  have h2 := List.reverse_prefix.mpr hr
  rwa [List.reverse_reverse] at h2

theorem pyStrip_sublist (s : PyStr) : List.Sublist (pyStrip s) s :=
  ((pyStrip_prefix_dropWhile s).sublist).trans ((List.dropWhile_suffix _).sublist)

theorem pyStrip_idem (s : PyStr) : pyStrip (pyStrip s) = pyStrip s := by
  have h1 : List.dropWhile isPySpace (pyStrip s) = pyStrip s :=
    dropWhile_eq_self_of_prefix (pyStrip_prefix_dropWhile s) (dropWhile_twice _ s)
  show ((List.dropWhile isPySpace (pyStrip s)).reverse.dropWhile isPySpace).reverse = pyStrip s
  rw [h1]
  show (((((s.dropWhile isPySpace).reverse.dropWhile isPySpace).reverse).reverse).dropWhile
      isPySpace).reverse = pyStrip s
  rw [List.reverse_reverse, dropWhile_twice]
  rfl

theorem pyStrip_map {f : Char → Char} (hf : ∀ c, isPySpace (f c) = isPySpace c) (s : PyStr) :
    pyStrip (s.map f) = (pyStrip s).map f := by
  have hcomp : (isPySpace ∘ f) = isPySpace := funext hf
  unfold pyStrip
  rw [List.dropWhile_map, hcomp, ← List.map_reverse, List.dropWhile_map, hcomp, List.map_reverse]

theorem pyStrip_pyUpper (s : PyStr) : pyStrip (pyUpper s) = pyUpper (pyStrip s) :=
  pyStrip_map isPySpace_pyUpperChar s

theorem pyUpper_idem (s : PyStr) : pyUpper (pyUpper s) = pyUpper s := by
  unfold pyUpper
  rw [List.map_map]
  exact List.map_congr_left (fun c _ => pyUpperChar_idem c)

theorem noParenPair_pyUpper {s : PyStr} (h : noParenPair s) : noParenPair (pyUpper s) := by
  intro hc
  simp only [pyUpper] at hc
  rw [List.sublist_map_iff] at hc
  obtain ⟨l', hsub, heq⟩ := hc
  match l' with
  | [a, b] =>
    have ha : pyUpperChar a = '(' := by
      have := heq
      simp only [List.map_cons, List.map_nil, List.cons.injEq] at this
      exact this.1.symm
    have hb : pyUpperChar b = ')' := by
      have := heq
      simp only [List.map_cons, List.map_nil, List.cons.injEq] at this
      exact this.2.1.symm
    have ha' : a = '(' := (pyUpperChar_fix_iff (by decide) (by decide) a).mp ha
    have hb' : b = ')' := (pyUpperChar_fix_iff (by decide) (by decide) b).mp hb
    subst ha'
    subst hb'
    exact h hsub
  | [] => simp at heq
  | [a] => simp at heq
  | a :: b :: c :: t => simp at heq

theorem cleanNetworkName_idem (s : PyStr) :
    cleanNetworkName (cleanNetworkName s) = cleanNetworkName s := by
  have hnp : noParenPair (cleanNetworkName s) := by
    have h1 : noParenPair (removeParens s) := noParenPair_removeParens s
    have h2 : noParenPair (pyStrip (removeParens s)) :=
      noParenPair_of_sublist (pyStrip_sublist _) h1
    exact noParenPair_pyUpper h2
  show pyUpper (pyStrip (removeParens (cleanNetworkName s))) = cleanNetworkName s
  rw [removeParens_eq_self hnp]
  show pyUpper (pyStrip (pyUpper (pyStrip (removeParens s)))) = cleanNetworkName s
  rw [pyStrip_pyUpper, pyStrip_idem, pyUpper_idem]
  rfl

instance : Inhabited NetworkMapping := ⟨⟨[], []⟩⟩

theorem lookupStandard_mem {c k : PyStr} :
    ∀ {tbl : List (PyStr × NetworkMapping)},
      lookupStandard c tbl = some k → k ∈ tbl.map Prod.fst := by
  intro tbl
  induction tbl with
  | nil => intro h; simp [lookupStandard] at h
  | cons e rest ih =>
    intro h
    obtain ⟨key, m⟩ := e
    by_cases hm : c ∈ m.aliases.map pyUpper
    · rw [lookupStandard, if_pos hm] at h
      injection h with h1
      simp [h1]
    · rw [lookupStandard, if_neg hm] at h
      simp [ih h]

theorem standardizeNetwork_keys_fixed :
    ∀ k ∈ networkMappings.map Prod.fst, standardizeNetwork k = k := by decide

theorem standardizeNetwork_idem (L : PyStr) :
    standardizeNetwork (standardizeNetwork L) = standardizeNetwork L := by
  by_cases hL : L = []
  · subst hL
    simp [standardizeNetwork]
  · cases hlk : lookupStandard (cleanNetworkName L) networkMappings with
    | some k =>
      have h1 : standardizeNetwork L = k := by
        simp [standardizeNetwork, if_neg hL, hlk]
      rw [h1]
      exact standardizeNetwork_keys_fixed k (lookupStandard_mem hlk)
    | none =>
      have h1 : standardizeNetwork L = cleanNetworkName L := by
        simp [standardizeNetwork, if_neg hL, hlk]
      rw [h1]
      by_cases hc : cleanNetworkName L = []
      · rw [hc]
        simp [standardizeNetwork]
      · simp [standardizeNetwork, if_neg hc, cleanNetworkName_idem, hlk]

/-- C8: the network-label standardizer is idempotent:
`standardize(standardize(L)) = standardize(L)` for every label. -/
theorem C8_standardizer_idempotent :
    ∀ L : PyStr, standardizeNetwork (standardizeNetwork L) = standardizeNetwork L :=
  standardizeNetwork_idem

/-! ## C6: alias-group equivalence -/

/-- C6 counterexample: inside the `BRC20` group both `"BRC20"` and `"BTC"`
are aliases, yet they standardize differently — the lookup loop reaches the
`BTC` group first for the alias `"BTC"` (the spec's noted dual membership),
so the claimed equivalence fails for this pair. -/
theorem C6_claim_counterexample :
    ∃ p ∈ networkMappings, "BRC20".data ∈ p.2.aliases ∧ "BTC".data ∈ p.2.aliases ∧
      standardizeNetwork "BRC20".data ≠ standardizeNetwork "BTC".data := by decide

/-- C6 amended: `standardize(A) = standardize(B)` for all aliases `A`, `B` of
the same group, except when the group is the `BRC20` group and the pair
involves its dually-listed alias `"BTC"`. -/
theorem C6_amended_group_equivalence :
    ∀ p ∈ networkMappings, ∀ A ∈ p.2.aliases, ∀ B ∈ p.2.aliases,
      ¬ (p.1 = "BRC20".data ∧ (A = "BTC".data ∨ B = "BTC".data)) →
      standardizeNetwork A = standardizeNetwork B := by decide

theorem C6_amended_witness :
    standardizeNetwork "BEP20".data = standardizeNetwork "BNB Smart Chain".data :=
  C6_amended_group_equivalence
    ("BSC".data, ⟨"BSC".data,
      ["BSC".data, "BEP20".data, "BNB Smart Chain".data,
       "BNB Smart Chain (BEP20)".data, "BEP-20".data]⟩)
    (by decide) "BEP20".data (by decide) "BNB Smart Chain".data (by decide) (by decide)

/-! ## C3: the empty-catalog boundary -/

/-- C3 (boundary part): on the empty catalog the resolver core returns its
query with zero verified matches, zero possible matches and no notes, for
every query string.  (The full claim — that the resolver never raises — fails
on the source as shipped: see `RESULTS`; the dataclasses omit the
`denomination` / `actual_symbol` / `source` fields their construction sites
pass, so any non-trivial catalog raises `TypeError`/`AttributeError`.) -/
theorem C3_empty_catalog (currency : PyStr) :
    enhancedQueryPure currency [] =
      { original_symbol := currency
        verified_matches := []
        possible_matches := []
        debug_info := [] } := rfl

/-! ## C9: stability of the dedup step -/

theorem dedupVariants_of_fresh :
    ∀ (l : List CoinVariant) (seen : List (PyStr × PyStr × PyStr × Option PyStr)),
      (∀ x ∈ l, mergeKey x ∉ seen) →
      l.Pairwise (fun a b => mergeKey a ≠ mergeKey b) →
      dedupVariants seen l = l := by
  intro l
  induction l with
  | nil => intro seen _ _; rfl
  | cons m ms ih =>
    intro seen hfresh hpw
    have hm : mergeKey m ∉ seen := hfresh m (by simp)
    rw [dedupVariants, if_neg hm]
    congr 1
    apply ih
    · intro x hx
      intro hmem
      rcases List.mem_cons.mp hmem with h1 | h1
      · exact (List.pairwise_cons.mp hpw).1 x hx h1.symm
      · exact hfresh x (List.mem_cons_of_mem m hx) h1
    · exact (List.pairwise_cons.mp hpw).2

/-- C9: on a list in which no two records share a dedup key, the merger's
dedup step is the identity (same records, same order). -/
theorem C9_dedup_stable (l : List CoinVariant)
    (h : l.Pairwise (fun a b => mergeKey a ≠ mergeKey b)) :
    dedupVariants [] l = l :=
  dedupVariants_of_fresh l [] (by intro x _ hc; cases hc) h

theorem C9_dedup_stable_witness :
    dedupVariants []
      [⟨"bybit".data, "CAT".data, "BSC".data, "0xabc".data, true, "traditional".data⟩,
       ⟨"binance".data, "1000CAT".data, "BSC".data, "0xabc".data, true, "smart".data⟩] =
      [⟨"bybit".data, "CAT".data, "BSC".data, "0xabc".data, true, "traditional".data⟩,
       ⟨"binance".data, "1000CAT".data, "BSC".data, "0xabc".data, true, "smart".data⟩] :=
  C9_dedup_stable _ (by decide)

/-! ## C1: the CAT / 1000CAT reconciliation scenario -/

/-- The catalog of the claimed scenario: `bybit` lists `CAT` on `"BSC"`,
`binance` lists `1000CAT` (denomination 1000) on
`"BNB Smart Chain (BEP20)"`, same contract up to case. -/
def c1Catalog : Catalog :=
  [("bybit".data,
    [{ exchange := "bybit".data, symbol := "CAT".data, name := "CAT".data,
       networks := [{ network := "BSC".data,
                      contract_address := some "0xABCD12".data }] }]),
   ("binance".data,
    [{ exchange := "binance".data, symbol := "1000CAT".data, name := "1000CAT".data,
       denomination := some 1000,
       networks := [{ network := "BNB Smart Chain (BEP20)".data,
                      contract_address := some "0xabcd12".data }] }])]

/-- C1 counterexample: resolving `"CAT"` returns no record tagged `smart` at
all — in particular no `smart` record for `binance` — because the traditional
matcher is denomination-aware and already claims the `1000CAT` listing, and
the smart matcher excludes traditionally-found triples. -/
theorem C1_claim_counterexample :
    ¬ ∃ v ∈ (enhancedQueryPure "CAT".data c1Catalog).verified_matches ++
        (enhancedQueryPure "CAT".data c1Catalog).possible_matches,
      v.exchange = "binance".data ∧ v.source = "smart".data := by decide

/-- C1 amended: the scenario yields exactly the two records, both tagged
`traditional` (and hence no duplicates): the denomination-aware traditional
matcher finds `1000CAT` directly and the smart matcher adds nothing. -/
theorem C1_amended_scenario :
    enhancedQueryPure "CAT".data c1Catalog =
      { original_symbol := "CAT".data
        verified_matches :=
          [⟨"bybit".data, "CAT".data, "BSC".data, "0xABCD12".data, true,
            "traditional".data⟩,
           ⟨"binance".data, "1000CAT".data, "BNB Smart Chain (BEP20)".data,
            "0xabcd12".data, true, "traditional".data⟩]
        possible_matches := []
        debug_info := [] } := by decide

/-! ## C5: the merger -/

/-- Specification-shaped stable dedup, from the claim's words: walk the list
keeping a record exactly when no earlier record (kept or not) has the same
key; `prev` is the already-walked prefix of the original list. -/
def dedupFirstOccAux (key : CoinVariant → PyStr × PyStr × PyStr × Option PyStr)
    (prev : List CoinVariant) : List CoinVariant → List CoinVariant
  | [] => []
  | x :: xs =>
    if key x ∈ prev.map key then dedupFirstOccAux key (prev ++ [x]) xs
    else x :: dedupFirstOccAux key (prev ++ [x]) xs

/-- First-occurrence-wins dedup of a whole list under `key`. -/
def dedupFirstOcc (key : CoinVariant → PyStr × PyStr × PyStr × Option PyStr)
    (l : List CoinVariant) : List CoinVariant :=
  dedupFirstOccAux key [] l

/-- The dedup key exactly as the claim words it: the 4-tuple with the
lower-cased contract address whenever the contract address is non-EMPTY
(rather than non-empty after `strip()`, as the code tests). -/
def claimMergeKey (m : CoinVariant) : PyStr × PyStr × PyStr × Option PyStr :=
  if m.contract_address ≠ [] then
    (m.exchange, m.symbol, m.network, some (pyLower m.contract_address))
  else
    (m.exchange, m.symbol, m.network, none)

/-- C5 counterexample: two records that differ only in whitespace-only
contract addresses (`" "` vs `"  "`).  Under the claim's key (non-empty
contract ⇒ 4-tuple) both survive, but the code keys both by the bare 3-tuple
(their `strip()` is falsy) and drops the second, so the merger's output is
not the claim's dedup. -/
theorem C5_claim_counterexample :
    (resultMerger "Q".data
        [⟨"v".data, "s".data, "n".data, " ".data, true, "traditional".data⟩,
         ⟨"v".data, "s".data, "n".data, "  ".data, true, "traditional".data⟩]
        []).verified_matches ≠
      dedupFirstOcc claimMergeKey
        ([⟨"v".data, "s".data, "n".data, " ".data, true, "traditional".data⟩,
          ⟨"v".data, "s".data, "n".data, "  ".data, true, "traditional".data⟩] ++ []) := by
  decide

theorem dedupVariants_eq_firstOcc :
    ∀ (l : List CoinVariant) (seen : List (PyStr × PyStr × PyStr × Option PyStr))
      (prev : List CoinVariant),
      (∀ κ, κ ∈ seen ↔ κ ∈ prev.map mergeKey) →
      dedupVariants seen l = dedupFirstOccAux mergeKey prev l := by
  intro l
  induction l with
  | nil => intro seen prev _; rfl
  | cons x xs ih =>
    intro seen prev hinv
    by_cases hx : mergeKey x ∈ seen
    · have hx' : mergeKey x ∈ prev.map mergeKey := (hinv _).mp hx
      rw [dedupVariants, if_pos hx, dedupFirstOccAux, if_pos hx']
      apply ih
      intro κ
      rw [hinv κ]
      constructor
      · intro h1
        simp only [List.map_append, List.mem_append]
        exact Or.inl h1
      · intro h1
        simp only [List.map_append, List.map_cons, List.map_nil, List.mem_append,
          List.mem_singleton] at h1
        rcases h1 with h1 | h1
        · exact h1
        · rw [h1]; exact hx' 
    · rw [dedupVariants, if_neg hx, dedupFirstOccAux,
        if_neg (fun hc => hx ((hinv _).mpr hc))]
      congr 1
      apply ih
      intro κ
      simp only [List.mem_cons, List.map_append, List.map_cons, List.map_nil,
        List.mem_append, hinv κ]
      tauto

/-- C5 amended: for every query and all traditional/smart lists, the merger
returns the concatenation (traditional first) deduplicated first-occurrence-
wins under the code's key — the 4-tuple with lower-cased contract address
whenever the address is non-empty AFTER `strip()`, the 3-tuple otherwise —
all retained records verified, `possible_matches` empty. -/
theorem C5_amended_merger (q : PyStr) (t s : List CoinVariant) :
    (resultMerger q t s).verified_matches = dedupFirstOcc mergeKey (t ++ s) ∧
    (resultMerger q t s).possible_matches = [] ∧
    (resultMerger q t s).original_symbol = q := by
  refine ⟨?_, rfl, rfl⟩
  show dedupVariants [] (t ++ s) = dedupFirstOcc mergeKey (t ++ s)
  exact dedupVariants_eq_firstOcc (t ++ s) [] [] (by simp)

/-! ## C7: the traditional matcher -/

/-- An empty listed symbol can only match an (effectively) empty query: the
denomination prefixes cannot occur in an empty string. -/
theorem symbolMatches_nil {dopt : Option Int} {q : PyStr}
    (h : symbolMatches [] dopt q = true) : pyUpper q = [] := by
  by_cases he : pyUpper ([] : PyStr) = pyUpper q
  · simpa [pyUpper] using he.symm
  · cases dopt with
    | none => simp [symbolMatches, he] at h
    | some d =>
      simp only [symbolMatches, if_neg he] at h
      by_cases hd : d ≠ 0 ∧ 1 < d
      · rw [if_pos hd] at h
        by_cases hp : (pyStrOfInt d).isPrefixOf ([] : PyStr) = true
        · rw [if_pos hp] at h
          have hnil : pyStrOfInt d = [] := by
            rw [List.isPrefixOf_iff_prefix] at hp
            exact List.prefix_nil.mp hp
          rw [hnil] at h
          simp only [List.length_nil, List.drop_nil] at h
          exact absurd (of_decide_eq_true h) he
        · rw [if_neg hp] at h
          have h1m : ¬ (d = 1000000 ∧ ("1M".data).isPrefixOf ([] : PyStr) = true) := by
            rintro ⟨_, hc⟩
            rw [List.isPrefixOf_iff_prefix] at hc
            exact absurd (List.prefix_nil.mp hc) (by decide)
          rw [if_neg h1m] at h
          exact absurd h (by decide)
      · rw [if_neg hd] at h
        exact absurd h (by decide)

theorem searchNetworks_spec (q : PyStr) (ex : PyStr) :
    ∀ coins : List SearchableCoinInfo,
      (searchNetworks q coins).map (fun n : NetworkInfo =>
        ({ exchange := ex
           symbol := pyOrStr n.actual_symbol (pyUpper q)
           network := n.network
           contract_address := pyOrEmpty n.contract_address
           is_verified := true
           source := "traditional".data } : CoinVariant)) =
      (match coins.find? (fun c => symbolMatches c.symbol c.denomination q) with
       | none => []
       | some c => c.networks.map (fun n =>
          { exchange := ex
            symbol := c.symbol
            network := n.network
            contract_address := pyOrEmpty n.contract_address
            is_verified := true
            source := "traditional".data })) := by
  intro coins
  induction coins with
  | nil => rfl
  | cons c cs ih =>
    by_cases hm : symbolMatches c.symbol c.denomination q = true
    · have hfind : List.find? (fun x => symbolMatches x.symbol x.denomination q) (c :: cs) =
          some c := by
        simp [List.find?_cons, hm]
      rw [searchNetworks, if_pos hm, hfind]
      rw [List.map_map]
      apply List.map_congr_left
      intro n _
      simp only [Function.comp_apply, toNetworkInfo]
      by_cases hsym : c.symbol = []
      · have hq : pyUpper q = [] := symbolMatches_nil (hsym ▸ hm)
        simp [pyOrStr, hsym, hq]
      · simp [pyOrStr, hsym]
    · have hfind : List.find? (fun x => symbolMatches x.symbol x.denomination q) (c :: cs) =
          List.find? (fun x => symbolMatches x.symbol x.denomination q) cs := by
        simp [List.find?_cons, hm]
      rw [searchNetworks, if_neg hm, hfind]
      exact ih

/-- C7: for every query and catalog, the traditional matcher (per-venue scan
plus variant conversion) emits, for each venue in catalog order, exactly one
`traditional`, verified record per network listing of the venue's FIRST coin
whose symbol satisfies the denomination-match predicate (and nothing for
venues without one), carrying the coin's actual listed symbol. -/
theorem C7_traditional_matcher (q : PyStr) (data : Catalog) :
    convertTraditionalToVariants (searchFromCachedData q data) q =
      data.flatMap (fun p =>
        match p.2.find? (fun c => symbolMatches c.symbol c.denomination q) with
        | none => []
        | some c => c.networks.map (fun n =>
            { exchange := p.1
              symbol := c.symbol
              network := n.network
              contract_address := pyOrEmpty n.contract_address
              is_verified := true
              source := "traditional".data })) := by
  unfold convertTraditionalToVariants searchFromCachedData
  rw [List.flatMap_map]
  apply List.flatMap_congr  -- hmm check name
  intro p _
  exact searchNetworks_spec q p.1 p.2

/-! ## C4: placeholder contract addresses and ContractKey formation -/

/-- The catalog with the network listings carrying falsy (`None`/empty)
contract addresses removed. -/
def dropUntruthyContracts (data : Catalog) : Catalog :=
  data.map (fun p => (p.1, p.2.map (fun c =>
    { c with networks := c.networks.filter (fun n => pyTruthy n.contract_address) })))

theorem contractMapStepCoin_filter (ex : PyStr) (m : List (PyStr × List (PyStr × PyStr × PyStr)))
    (c : SearchableCoinInfo) :
    contractMapStepCoin ex m
      { c with networks := c.networks.filter (fun n => pyTruthy n.contract_address) } =
      contractMapStepCoin ex m c := by
  show (c.networks.filter (fun n => pyTruthy n.contract_address)).foldl
      (contractMapStepNet ex c.symbol) m = c.networks.foldl (contractMapStepNet ex c.symbol) m
  induction c.networks generalizing m with
  | nil => rfl
  | cons n ns ih =>
    match hn : n.contract_address with
    | none =>
      rw [List.filter_cons]
      have ht : pyTruthy n.contract_address = false := by rw [hn]; rfl
      rw [ht]
      simp only [Bool.false_eq_true, if_false]
      rw [List.foldl_cons]
      rw [show contractMapStepNet ex c.symbol m n = m by
        unfold contractMapStepNet; rw [hn]]
      exact ih m
    | some a =>
      by_cases ha : a = []
      · rw [List.filter_cons]
        have ht : pyTruthy n.contract_address = false := by
          rw [hn, ha]; rfl
        rw [ht]
        simp only [Bool.false_eq_true, if_false]
        rw [List.foldl_cons]
        rw [show contractMapStepNet ex c.symbol m n = m by
          unfold contractMapStepNet; rw [hn]; simp [ha]]
        exact ih m
      · rw [List.filter_cons]
        have ht : pyTruthy n.contract_address = true := by
          rw [hn]; simpa [pyTruthy] using ha
        rw [ht]
        simp only [if_true]
        rw [List.foldl_cons, List.foldl_cons]
        exact ih _

theorem buildContractMap_ignores_untruthy (data : Catalog) :
    buildContractMap (dropUntruthyContracts data) = buildContractMap data := by
  unfold buildContractMap dropUntruthyContracts
  rw [List.foldl_map]
  have hstep : (fun m p => contractMapStepVenue m
      ((fun p : PyStr × List SearchableCoinInfo => (p.1, p.2.map (fun c =>
        { c with networks := c.networks.filter (fun n => pyTruthy n.contract_address) }))) p)) =
      contractMapStepVenue := by
    funext m p
    show (p.2.map (fun c =>
        { c with networks := c.networks.filter (fun n => pyTruthy n.contract_address) })).foldl
        (contractMapStepCoin p.1) m = p.2.foldl (contractMapStepCoin p.1) m
    rw [List.foldl_map]
    have : (fun m c => contractMapStepCoin p.1 m
        { c with networks := c.networks.filter (fun n => pyTruthy n.contract_address) }) =
        contractMapStepCoin p.1 := by
      funext m c
      exact contractMapStepCoin_filter p.1 m c
    rw [this]
  rw [hstep]

/-- The catalog of the C4 counterexample: two venues list distinct symbols
whose contract address is the literal placeholder string `"null"` (differing
in case) on the same network. -/
def c4Catalog : Catalog :=
  [("bybit".data,
    [{ exchange := "bybit".data, symbol := "FOO".data, name := "FOO".data,
       networks := [{ network := "BSC".data, contract_address := some "null".data }] }]),
   ("binance".data,
    [{ exchange := "binance".data, symbol := "BAR".data, name := "BAR".data,
       networks := [{ network := "BSC".data, contract_address := some "NULL".data }] }])]

/-- C4 counterexample: the smart matcher's index filters only falsy contract
addresses, so the placeholder string `"null"` DOES form the ContractKey
`"null_BSC"`, the two unrelated listings are identified through it, and the
emitted smart record carries `"null"` as its contract address. -/
theorem C4_claim_counterexample :
    (∃ v ∈ smartIdentification "FOO".data c4Catalog,
        v.contract_address = "null".data ∧ v.source = "smart".data) ∧
      assocLookup (buildContractMap c4Catalog) ("null_BSC".data) ≠ none := by decide

/-- C4 amended: listings with falsy (`None`/empty) contract addresses never
participate in ContractKey formation in the smart matcher's index, and
`ContractAddressDatabase.add_contract` additionally rejects the textual
placeholders `"null"`/`"none"` (case-insensitively); the smart matcher itself
performs no textual-placeholder filtering. -/
theorem C4_amended_placeholder_filtering :
    (∀ data : Catalog, buildContractMap (dropUntruthyContracts data) = buildContractMap data) ∧
    (∀ (db : ContractAddressDatabase) (s n a e : PyStr),
      (a = [] ∨ pyLower a ∈ ["null".data, "none".data, ([] : PyStr)]) →
      addContract db s n a e = db) := by
  refine ⟨buildContractMap_ignores_untruthy, ?_⟩
  intro db s n a e h
  unfold addContract
  rw [if_pos h]

theorem C4_amended_witness :
    addContract { contracts := [], symbols := [] } "FOO".data "BSC".data "NULL".data
        "bybit".data = { contracts := [], symbols := [] } :=
  C4_amended_placeholder_filtering.2 _ _ _ _ _ (Or.inr (by decide))

/-! ## C10: contract addresses on smart records -/

theorem foldl_mem_rec {α β : Type} (g : List α → β → List α) (P : α → β → Prop)
    (hg : ∀ acc b x, x ∈ g acc b → x ∈ acc ∨ P x b) :
    ∀ (l : List β) (init : List α) (x : α), x ∈ l.foldl g init → x ∈ init ∨ ∃ b ∈ l, P x b := by
  intro l
  induction l with
  | nil =>
    intro init x h
    exact Or.inl h
  | cons b bs ih =>
    intro init x h
    rcases ih (g init b) x h with h1 | ⟨b2, hb2, hP⟩
    · rcases hg init b x h1 with h2 | h2
      · exact Or.inl h2
      · exact Or.inr ⟨b, by simp, h2⟩
    · exact Or.inr ⟨b2, by simp [hb2], hP⟩

theorem mem_insertNew {α : Type} [DecidableEq α] {l : List α} {a x : α}
    (h : x ∈ insertNew l a) : x ∈ l ∨ x = a := by
  unfold insertNew at h
  split at h
  · exact Or.inl h
  · rcases List.mem_append.mp h with h1 | h1
    · exact Or.inl h1
    · exact Or.inr (List.mem_singleton.mp h1)

/-- The catalog lists contract address `a` on some network of some coin of
some venue, truthily. -/
def catalogHasContract (data : Catalog) (a : PyStr) : Prop :=
  ∃ p ∈ data, ∃ coin ∈ p.2, ∃ n ∈ coin.networks,
    n.contract_address = some a ∧ a ≠ []

theorem allRelatedContracts_from_catalog (rel : List PyStr) (data : Catalog) :
    ∀ k ∈ allRelatedContracts rel data,
      ∃ a net : PyStr, catalogHasContract data a ∧ k = mkContractKey a net := by
  intro k hk
  unfold allRelatedContracts at hk
  have hstep := foldl_mem_rec _
    (fun (k : PyStr) (p : PyStr × List SearchableCoinInfo) =>
      ∃ coin ∈ p.2, ∃ n ∈ coin.networks, ∃ a : PyStr,
        n.contract_address = some a ∧ a ≠ [] ∧ k = mkContractKey a n.network)
    ?_ data [] k hk
  · rcases hstep with h1 | ⟨p, hp, coin, hcoin, n, hn, a, ha1, ha2, ha3⟩
    · cases h1
    · exact ⟨a, n.network, ⟨p, hp, coin, hcoin, n, hn, ha1, ha2⟩, ha3⟩
  · intro acc p x hx
    have hstep2 := foldl_mem_rec _
      (fun (k : PyStr) (coin : SearchableCoinInfo) =>
        ∃ n ∈ coin.networks, ∃ a : PyStr,
          n.contract_address = some a ∧ a ≠ [] ∧ k = mkContractKey a n.network)
      ?_ p.2 acc x hx
    · rcases hstep2 with h1 | ⟨coin, hcoin, n, hn, a, h3⟩
      · exact Or.inl h1
      · exact Or.inr ⟨coin, hcoin, n, hn, a, h3⟩
    · intro acc2 coin x2 hx2
      by_cases hrel : pyUpper coin.symbol ∈ rel
      · rw [if_pos hrel] at hx2
        have hstep3 := foldl_mem_rec _
          (fun (k : PyStr) (n : SearchableNetworkInfo) =>
            ∃ a : PyStr, n.contract_address = some a ∧ a ≠ [] ∧ k = mkContractKey a n.network)
          ?_ coin.networks acc2 x2 hx2
        · rcases hstep3 with h1 | ⟨n, hn, a, h3⟩
          · exact Or.inl h1
          · exact Or.inr ⟨n, hn, a, h3⟩
        · intro acc3 n x3 hx3
          match hna : n.contract_address with
          | none =>
            rw [hna] at hx3
            exact Or.inl hx3
          | some a =>
            rw [hna] at hx3
            have hx4 : x3 ∈ (if a ≠ [] then insertNew acc3 (mkContractKey a n.network)
                else acc3) := hx3
            by_cases ha : a = []
            · rw [if_neg (show ¬ (a ≠ []) from by simp [ha])] at hx4
              exact Or.inl hx4
            · rw [if_pos ha] at hx4
              rcases mem_insertNew hx4 with h1 | h1
              · exact Or.inl h1
              · exact Or.inr ⟨a, hna, ha, h1⟩
      · rw [if_neg hrel] at hx2
        exact Or.inl hx2

theorem emitVariants_contract (cm : List (PyStr × List (PyStr × PyStr × PyStr)))
    (tf : List (PyStr × PyStr × PyStr)) (keys : List PyStr) :
    ∀ v ∈ emitVariants cm tf keys,
      ∃ k ∈ keys, v.contract_address = k.takeWhile (fun c => c ≠ '_') ∧
        v.source = "smart".data := by
  intro v hv
  unfold emitVariants at hv
  have hstep := foldl_mem_rec _
    (fun (v : CoinVariant) (k : PyStr) =>
      v.contract_address = k.takeWhile (fun c => c ≠ '_') ∧ v.source = "smart".data)
    ?_ keys [] v hv
  · rcases hstep with h1 | ⟨k, hk, hP⟩
    · cases h1
    · exact ⟨k, hk, hP⟩
  · intro acc k x hx
    match hcm : assocLookup cm k with
    | none =>
      rw [hcm] at hx
      exact Or.inl hx
    | some entries =>
      rw [hcm] at hx
      have hstep2 := foldl_mem_rec _
        (fun (v : CoinVariant) (e : PyStr × PyStr × PyStr) =>
          v.contract_address = k.takeWhile (fun c => c ≠ '_') ∧ v.source = "smart".data)
        ?_ entries acc x hx
      · rcases hstep2 with h1 | ⟨e, _, hP⟩
        · exact Or.inl h1
        · exact Or.inr hP
      · intro acc2 e x2 hx2
        by_cases he : (e.1, e.2.1, e.2.2) ∈ tf
        · rw [if_pos he] at hx2
          exact Or.inl hx2
        · rw [if_neg he] at hx2
          rcases List.mem_append.mp hx2 with h1 | h1
          · exact Or.inl h1
          · have h2 := List.mem_singleton.mp h1
            subst h2
            exact Or.inr ⟨rfl, rfl⟩

theorem takeWhile_mkContractKey (a net : PyStr) :
    (mkContractKey a net).takeWhile (fun c => c ≠ '_') =
      (pyLower a).takeWhile (fun c => c ≠ '_') := by
  unfold mkContractKey
  rw [List.takeWhile_append]
  split
  · rename_i hlen
    have heq : (pyLower a).takeWhile (fun c => (c ≠ '_' : Bool)) = pyLower a :=
      (List.takeWhile_prefix _).eq_of_length hlen
    rw [show List.takeWhile (fun c => (c ≠ '_' : Bool)) ('_' :: standardizeNetwork net) = []
        from by rw [List.takeWhile_cons]; simp]
    rw [List.append_nil, heq]
  · rfl

/-- No truthy contract address in the catalog begins with an underscore. -/
def noUnderscoreContracts (data : Catalog) : Bool :=
  data.all (fun p => p.2.all (fun coin => coin.networks.all (fun n =>
    match n.contract_address with
    | some a => !(("_".data).isPrefixOf a)
    | none => true)))

/-- The catalog of the C10 counterexample: a shared contract address that
begins with `'_'`. -/
def c10Catalog : Catalog :=
  [("bybit".data,
    [{ exchange := "bybit".data, symbol := "FOO".data, name := "FOO".data,
       networks := [{ network := "BSC".data, contract_address := some "_0x".data }] }]),
   ("binance".data,
    [{ exchange := "binance".data, symbol := "BAR".data, name := "BAR".data,
       networks := [{ network := "BSC".data, contract_address := some "_0X".data }] }])]

/-- C10 counterexample: the smart record's contract address is
`contract_key.split('_')[0]`, which is EMPTY when the listed address begins
with an underscore — so a smart record with an empty contract address is
possible. -/
theorem C10_claim_counterexample :
    ∃ v ∈ smartIdentification "FOO".data c10Catalog,
      v.source = "smart".data ∧ v.contract_address = [] := by decide

/-- C10 amended: every smart record's contract address is the lower-cased
listed address truncated at its first underscore (for some truthy contract
address of the catalog); in particular it is non-empty whenever no listed
contract address begins with `'_'`. -/
theorem C10_amended_smart_contracts :
    (∀ (currency : PyStr) (data : Catalog) (v : CoinVariant),
       v ∈ smartIdentification currency data →
       ∃ a : PyStr, catalogHasContract data a ∧
         v.contract_address = (pyLower a).takeWhile (fun c => c ≠ '_')) ∧
    (∀ (currency : PyStr) (data : Catalog),
       noUnderscoreContracts data = true →
       ∀ v ∈ smartIdentification currency data, v.contract_address ≠ []) := by
  have hpart1 : ∀ (currency : PyStr) (data : Catalog) (v : CoinVariant),
      v ∈ smartIdentification currency data →
      ∃ a : PyStr, catalogHasContract data a ∧
        v.contract_address = (pyLower a).takeWhile (fun c => c ≠ '_') := by
    intro currency data v hv
    unfold smartIdentification at hv
    obtain ⟨k, hk, hcon, _⟩ := emitVariants_contract _ _ _ v hv
    obtain ⟨a, net, hcat, hkey⟩ := allRelatedContracts_from_catalog _ _ k hk
    refine ⟨a, hcat, ?_⟩
    rw [hcon, hkey, takeWhile_mkContractKey]
  refine ⟨hpart1, ?_⟩
  intro currency data hnou v hv
  obtain ⟨a, hcat, heq⟩ := hpart1 currency data v hv
  obtain ⟨p, hp, coin, hcoin, n, hn, hna, hane⟩ := hcat
  have hpref : ("_".data).isPrefixOf a = false := by
    have h1 := List.all_eq_true.mp hnou p hp
    have h2 := List.all_eq_true.mp h1 coin hcoin
    have h3 := List.all_eq_true.mp h2 n hn
    rw [hna] at h3
    simpa using h3
  match a, hane with
  | c :: t, _ =>
    have hcu : c ≠ '_' := by
      intro hc
      subst hc
      simp [List.isPrefixOf] at hpref
    have hlc : ¬ (pyLowerChar c = '_') := fun hc =>
      hcu ((pyLowerChar_fix_iff (by decide) (by decide) c).mp hc)
    rw [heq]
    show ¬ (List.takeWhile (fun c => (c ≠ '_' : Bool)) (pyLowerChar c :: List.map pyLowerChar t) = [])
    rw [List.takeWhile_cons]
    simp [hlc]

/-- The catalog of the C10 witness: an ordinary shared hex contract
address. -/
def c10WitnessCatalog : Catalog :=
  [("bybit".data,
    [{ exchange := "bybit".data, symbol := "FOO".data, name := "FOO".data,
       networks := [{ network := "BSC".data, contract_address := some "0xAA".data }] }]),
   ("binance".data,
    [{ exchange := "binance".data, symbol := "BARX".data, name := "BARX".data,
       networks := [{ network := "BSC".data, contract_address := some "0xaa".data }] }])]

theorem C10_amended_witness :
    (⟨"binance".data, "BARX".data, "BSC".data, "0xaa".data, true,
        "smart".data⟩ : CoinVariant).contract_address ≠ [] :=
  C10_amended_smart_contracts.2 "FOO".data c10WitnessCatalog (by decide) _ (by decide)
